import Mathlib

/-
Verification of the annotation module of Integron_Finder
(integron_finder/annotation.py): the functions add_feature and func_annot.

The embedding models pandas data frames as Lean lists of records, Biopython
SeqFeature records as a Feature structure, and the protein FASTA bank as a
list of (id, sequence) pairs.  Fallible paths (an uncaught Python exception
such as IndexError or UnboundLocalError, or a raised RuntimeError) are
modelled with Option / Except.
-/

namespace IntegronFinder

/-- One sequence of the companion protein FASTA file (prot_file), as yielded
by read_multi_prot_fasta: an identifier and the amino-acid sequence. -/
structure Prot where
  id : String
  seq : String
deriving DecidableEq, Repr

/-- One row of the integron description table passed to add_feature
(integron_desc), after set_index on the ID_integron column.  The source
column named type is rendered itype and the column named after the semantic
label of the element is rendered annot (both renamed for Lean). -/
structure Row where
  element : String
  pos_beg : Int
  pos_end : Int
  strand : Int
  type_elt : String
  model : String
  annot : String
  itype : String
deriving DecidableEq, Repr

/-- A Biopython feature location: either a single FeatureLocation(start, stop)
or the join f1 + f2 of two FeatureLocation values (a CompoundLocation). -/
inductive Loc where
  | contiguous (start stop : Int)
  | joined (start1 stop1 start2 stop2 : Int)
deriving DecidableEq, Repr

/-- A Biopython SeqFeature as built by add_feature: location, strand, type,
and the qualifiers dictionary (rendered as an association list in insertion
order). -/
structure Feature where
  loc : Loc
  strand : Int
  ftype : String
  qualifiers : List (String × String)
deriving DecidableEq, Repr

/-- The replicon SeqRecord: its display name, its length (len(replicon)),
and its mutable feature list. -/
structure Replicon where
  name : String
  length : Int
  features : List Feature
deriving DecidableEq, Repr

/-- Lines 205-225 of annotation.py: the feature built for one element row of
a several-element integron.  A protein row becomes a CDS (or integrase when
the semantic label is intI) carrying protein_id / gene / model qualifiers
plus the translation looked up in the protein FASTA by
[prt for prt in read_multi_prot_fasta(prot_file) if prt.id == elt.element][0];
the empty-match case is the uncaught IndexError, modelled as none.  Any other
row becomes a feature of its own type_elt. -/
def eltFeature (bank : List Prot) (r : Row) : Option Feature :=
  if r.type_elt = "protein" then
    match (bank.filter (fun p => p.id == r.element)).head? with
    | some prt =>
        some { loc := Loc.contiguous (r.pos_beg - 1) r.pos_end
               strand := r.strand
               ftype := if r.annot ≠ "intI" then "CDS" else "integrase"
               qualifiers := [("protein_id", r.element), ("gene", r.annot),
                              ("model", r.model), ("translation", prt.seq)] }
    | none => none
  else
    some { loc := Loc.contiguous (r.pos_beg - 1) r.pos_end
           strand := r.strand
           ftype := r.type_elt
           qualifiers := [(r.type_elt, r.element), ("model", r.model)] }

/-- Lines 137-170 of annotation.py: the single-element branch
(integron_desc.loc[id] is a Series).  The umbrella integron feature is
appended first, then the feature of the lone element, built inline exactly as
in the source (the element location reuses start_integron / end_integron). -/
def singletonFeatures (bank : List Prot) (integron_id : String) (the_elt : Row) :
    Option (List Feature) :=
  let umbrella : Feature :=
    { loc := Loc.contiguous (the_elt.pos_beg - 1) the_elt.pos_end
      strand := 0
      ftype := "integron"
      qualifiers := [("integron_id", integron_id), ("integron_type", the_elt.itype)] }
  if the_elt.type_elt = "protein" then
    match (bank.filter (fun p => p.id == the_elt.element)).head? with
    | some prt =>
        some [umbrella,
              { loc := Loc.contiguous (the_elt.pos_beg - 1) the_elt.pos_end
                strand := the_elt.strand
                ftype := if the_elt.annot ≠ "intI" then "CDS" else "integrase"
                qualifiers := [("protein_id", the_elt.element), ("gene", the_elt.annot),
                               ("model", the_elt.model), ("translation", prt.seq)] }]
    | none => none
  else
    some [umbrella,
          { loc := Loc.contiguous (the_elt.pos_beg - 1) the_elt.pos_end
            strand := the_elt.strand
            ftype := the_elt.type_elt
            qualifiers := [(the_elt.type_elt, the_elt.element), ("model", the_elt.model)] }]

/-- Helper for firstGap: scans the remaining pos_beg values, prev holding the
previous value and i the positional index of the current one. -/
def firstGapAux (thr : Int) : Int → List Int → Nat → Option Nat
  | _, [], _ => none
  | prev, p :: t, i => if p - prev > thr then some i else firstGapAux thr p t (i + 1)

/-- Lines 179-182 of annotation.py: diff = integron.pos_beg.diff() > dist_threshold
followed by pos = np.where(diff)[0][0].  Returns the positional index of the
first row whose pos_beg exceeds the previous pos_beg by more than
dist_threshold (the first row yields NaN, which never fires), or none when no
gap exceeds the threshold. -/
def firstGap (ps : List Int) (thr : Int) : Option Nat :=
  match ps with
  | [] => none
  | p :: t => firstGapAux thr p t 1

/-- Lines 176-203 of annotation.py: the umbrella integron feature of a
several-element integron.  When a gap larger than dist_threshold exists
(integron over the edge of the replicon) the location is the join
FeatureLocation(pos_beg[pos] - 1, len(replicon)) + FeatureLocation(0, pos_end[pos - 1]);
otherwise it is FeatureLocation(pos_beg[0] - 1, pos_end[-1]). -/
def multiUmbrella (repliconLen thr : Int) (integron_id : String) (rows : List Row) :
    Feature :=
  let ps := rows.map (fun r => r.pos_beg)
  let pe := rows.map (fun r => r.pos_end)
  let type_integron := (rows.map (fun r => r.itype)).headD ""
  match firstGap ps thr with
  | some pos =>
      { loc := Loc.joined (ps.getD pos 0 - 1) repliconLen 0 (pe.getD (pos - 1) 0)
        strand := 0
        ftype := "integron"
        qualifiers := [("integron_id", integron_id), ("integron_type", type_integron)] }
  | none =>
      { loc := Loc.contiguous (ps.headD 0 - 1) (pe.getLastD 0)
        strand := 0
        ftype := "integron"
        qualifiers := [("integron_id", integron_id), ("integron_type", type_integron)] }

/-- The per-row loop of lines 205-225: each row of the integron table yields
one feature, in table order; a failed protein lookup aborts (IndexError). -/
def eltFeatures (bank : List Prot) : List Row → Option (List Feature)
  | [] => some []
  | r :: t =>
    match eltFeature bank r, eltFeatures bank t with
    | some f, some fs => some (f :: fs)
    | _, _ => none

/-- Lines 172-225 of annotation.py: the several-element branch.  The umbrella
feature is appended first, then one feature per row in table order. -/
def multiFeatures (bank : List Prot) (repliconLen thr : Int) (integron_id : String)
    (rows : List Row) : Option (List Feature) :=
  match eltFeatures bank rows with
  | some fs => some (multiUmbrella repliconLen thr integron_id rows :: fs)
  | none => none

/-- Lines 136-225 of annotation.py: the per-integron dispatch.  A one-row
integron (integron_desc.loc[id] is a Series) takes the single-element branch,
any other takes the several-element branch. -/
def integronFeatures (bank : List Prot) (repliconLen thr : Int) (integron_id : String)
    (rows : List Row) : Option (List Feature) :=
  match rows with
  | [the_elt] => singletonFeatures bank integron_id the_elt
  | _ => multiFeatures bank repliconLen thr integron_id rows

/-- The loop over integron_desc.index.unique() of line 136: the description
table grouped by ID_integron in order of first appearance; the features of
every integron are appended to the replicon feature list in turn. -/
def groupsFeatures (bank : List Prot) (repliconLen thr : Int) :
    List (String × List Row) → Option (List Feature)
  | [] => some []
  | g :: t =>
    match integronFeatures bank repliconLen thr g.1 g.2, groupsFeatures bank repliconLen thr t with
    | some fs, some rest => some (fs ++ rest)
    | _, _ => none

/-- Lines 229-230 of annotation.py: if len(replicon.name) > 16 the name is
replaced by its Python slice name[-16:], the last 16 characters. -/
def truncateName (s : String) : String :=
  if s.length > 16 then String.mk (s.data.drop (s.data.length - 16)) else s

/-- Lines 124-230 of annotation.py: add_feature.  Appends the features of
every integron of the description table to the replicon feature list, then
truncates the replicon name to its last 16 characters when it is longer than
16; none models an uncaught exception during the run. -/
def add_feature (bank : List Prot) (thr : Int) (repl : Replicon)
    (desc : List (String × List Row)) : Option Replicon :=
  match groupsFeatures bank repl.length thr desc with
  | some fs => some { repl with features := repl.features ++ fs, name := truncateName repl.name }
  | none => none

/-- One row of a parsed hmmsearch hit table as returned by read_hmm: the hit
columns used by func_annot (query_name, ID_query, ID_prot, evalue).  The
floating-point evalue is modelled as a rational. -/
structure Hit where
  query_name : String
  ID_query : String
  ID_prot : String
  evalue : Rat
deriving DecidableEq, Repr

/-- sort_values by evalue, modelled as a stable insertion sort on the evalue
column (lines 113-116 of annotation.py). -/
def sortByEvalue (l : List Hit) : List Hit :=
  l.insertionSort (fun a b => a.evalue ≤ b.evalue)

/-- drop_duplicates(subset=ID_prot): keeps the first row of each ID_prot in
table order; seen accumulates the identifiers already emitted. -/
def dropDupProt (seen : List String) : List Hit → List Hit
  | [] => []
  | h :: t =>
    if h.ID_prot ∈ seen then dropDupProt seen t
    else h :: dropDupProt (h.ID_prot :: seen) t

/-- Lines 113-116 of annotation.py: the hit-merging rule
sort_values(evalue).drop_duplicates(subset=ID_prot). -/
def sortDedup (l : List Hit) : List Hit :=
  dropDupProt [] (sortByEvalue l)

/-- One protein row of an Integron proteins table: the index (ID_prot) and
the evalue / semantic-label / model columns updated by func_annot. -/
structure ProtRow where
  ID_prot : String
  evalue : Rat
  annot : String
  model : String
deriving DecidableEq, Repr

/-- The Integron entity as seen by func_annot: the value of integron.type()
and the proteins table. -/
structure Integron where
  itype : String
  proteins : List ProtRow
deriving DecidableEq, Repr

/-- The outcome of subprocess.call on one hmmsearch command: either the
process ran and returned an exit code, or launching it raised an exception
with a message (e.g. a missing executable). -/
inductive CallResult where
  | ok (returncode : Int)
  | launchFailure (err : String)
deriving DecidableEq, Repr

/-- Lines 107-112 of annotation.py: a launch exception raises
RuntimeError(hmm_cmd[0] + " failed : " + err) and a non-zero exit code raises
RuntimeError(hmm_cmd[0] + " failed return code = " + returncode); hmm_cmd[0]
is the hmmsearch executable name. -/
def runHmm (tool : String) (res : CallResult) : Except String Unit :=
  match res with
  | .launchFailure err => .error (tool ++ " failed : " ++ err)
  | .ok rc => if rc ≠ 0 then .error (tool ++ " failed return code = " ++ toString rc) else .ok ()

/-- One hmm profile iteration of lines 95-115: the subprocess outcome of its
hmmsearch invocation and, when it succeeded, the parsed hit table
(read_hmm output filtered by evalue and coverage). -/
structure HmmRun where
  callResult : CallResult
  hits : List Hit
deriving DecidableEq, Repr

/-- The loop over hmm_files of lines 95-115: each profile invocation is
checked (runHmm), its hit table deduplicated per ID_prot by lowest evalue and
concatenated onto func_annotate_res; a RuntimeError aborts the loop and
propagates. -/
def mergeRuns (tool : String) : List HmmRun → Except String (List Hit)
  | [] => .ok []
  | r :: rs =>
    match runHmm tool r.callResult with
    | .error e => .error e
    | .ok _ =>
      match mergeRuns tool rs with
      | .error e => .error e
      | .ok hs => .ok (sortDedup r.hits ++ hs)

/-- Lines 118-120 of annotation.py: integron.proteins.loc[res.ID_prot, c] =
res.c.values for c in (evalue, query_name as the semantic label, ID_query as
the model): each protein row whose identifier appears in the merged
deduplicated hit table takes the values of its winning hit, the others are
left unchanged. -/
def applyAnnot (res : List Hit) (prots : List ProtRow) : List ProtRow :=
  prots.map (fun p =>
    match res.find? (fun h => h.ID_prot == p.ID_prot) with
    | some h => { p with evalue := h.evalue, annot := h.query_name, model := h.ID_query }
    | none => p)

/-- Lines 79-121 of annotation.py: the body of the per-integron loop of
func_annot.  Integrons of type In0 or with an empty proteins table are
skipped untouched; otherwise the hmm invocations run, their merged hit table
is deduplicated once more by lowest evalue, and the proteins table is updated
in place. -/
def funcAnnotIntegron (tool : String) (runs : List HmmRun) (i : Integron) :
    Except String Integron :=
  if i.itype ≠ "In0" ∧ i.proteins ≠ [] then
    match mergeRuns tool runs with
    | .error e => .error e
    | .ok merged => .ok { i with proteins := applyAnnot (sortDedup merged) i.proteins }
  else .ok i

/-- Line 75 of annotation.py: the loop over the integron list; the first
RuntimeError aborts the whole call and propagates to the caller.  runsOf
gives the subprocess outcomes observed for a given integron. -/
def funcAnnotList (tool : String) (runsOf : Integron → List HmmRun) :
    List Integron → Except String (List Integron)
  | [] => .ok []
  | i :: t =>
    match funcAnnotIntegron tool (runsOf i) i with
    | .error e => .error e
    | .ok i2 =>
      match funcAnnotList tool runsOf t with
      | .error e => .error e
      | .ok t2 => .ok (i2 :: t2)

/-- Lines 90-92 of annotation.py: for prot_nb, prot in enumerate(all_prots, 1):
if prot.id in integron.proteins.index: prot_to_annotate.append(prot).
The state is the last bound value of the loop variable prot_nb (none while it
was never bound, i.e. for an empty bank) and the accumulated subset written
to the scratch FASTA. -/
def protLoop (protIndex : List String) (bank : List Prot) : Option Nat × List Prot :=
  bank.foldl
    (fun st p => (some (st.1.getD 0 + 1), if p.id ∈ protIndex then st.2 ++ [p] else st.2))
    (none, [])

/-- Lines 99-105 of annotation.py: the hmmsearch command list.  Reading
prot_nb while it was never bound is the Python UnboundLocalError, modelled as
the error case. -/
def buildHmmCmd (hmmsearch : String) (cpu : Nat) (tblout hmm_out hmm prot_tmp : String)
    (prot_nb : Option Nat) : Except String (List String) :=
  match prot_nb with
  | none => .error "UnboundLocalError: local variable prot_nb referenced before assignment"
  | some n =>
    .ok [hmmsearch, "-Z", toString n, "--cpu", toString cpu,
         "--tblout", tblout, "-o", hmm_out, hmm, prot_tmp]

/-- Lines 86-105 of annotation.py: the command built for every hmm profile
file, all sharing the final value of prot_nb from the bank-scanning loop. -/
def funcAnnotCmds (hmmsearch : String) (cpu : Nat) (tblout hmm_out prot_tmp : String)
    (protIndex : List String) (bank : List Prot) : List String → Except String (List (List String))
  | [] => .ok []
  | hmm :: t =>
    match buildHmmCmd hmmsearch cpu tblout hmm_out hmm prot_tmp (protLoop protIndex bank).1 with
    | .error e => .error e
    | .ok cmd =>
      match funcAnnotCmds hmmsearch cpu tblout hmm_out prot_tmp protIndex bank t with
      | .error e => .error e
      | .ok cmds => .ok (cmd :: cmds)

/-! ### Helper lemmas about the add_feature embedding -/

/-- The single-element branch and the several-element branch of add_feature
build the same features on a one-row table. -/
theorem singletonBranch_eq_multiBranch (bank : List Prot) (L thr : Int) (gid : String)
    (r : Row) : singletonFeatures bank gid r = multiFeatures bank L thr gid [r] := by
  by_cases hp : r.type_elt = "protein"
  · cases hh : (bank.filter (fun p => p.id == r.element)).head? <;>
      simp [singletonFeatures, multiFeatures, eltFeatures, eltFeature, multiUmbrella,
            firstGap, firstGapAux, hp, hh]
  · simp [singletonFeatures, multiFeatures, eltFeatures, eltFeature, multiUmbrella,
          firstGap, firstGapAux, hp]

/-- The per-integron dispatch always agrees with the several-element branch. -/
theorem integronFeatures_eq_multi (bank : List Prot) (L thr : Int) (gid : String)
    (rows : List Row) :
    integronFeatures bank L thr gid rows = multiFeatures bank L thr gid rows := by
  match rows with
  | [] => rfl
  | [r] => exact singletonBranch_eq_multiBranch bank L thr gid r
  | a :: b :: t => rfl

/-- The element loop emits one feature per row, in row order. -/
theorem eltFeatures_spec (bank : List Prot) :
    ∀ {rows : List Row} {fs : List Feature}, eltFeatures bank rows = some fs →
      fs.length = rows.length ∧ ∀ i : Nat, fs[i]? = (rows[i]?).bind (eltFeature bank) := by
  intro rows
  induction rows with
  | nil =>
    intro fs h
    simp only [eltFeatures, Option.some.injEq] at h
    subst h
    simp
  | cons r t ih =>
    intro fs h
    simp only [eltFeatures] at h
    cases hf : eltFeature bank r <;> rw [hf] at h
    · exact absurd h (by simp)
    · cases ht : eltFeatures bank t <;> rw [ht] at h
      · exact absurd h (by simp)
      · simp only [Option.some.injEq] at h
        subst h
        obtain ⟨hlen, hidx⟩ := ih ht
        refine ⟨by simp [hlen], ?_⟩
        intro i
        cases i with
        | zero => simp [hf]
        | succ j => simpa using hidx j

/-- A feature emitted for an element row never has the umbrella type, as long
as the row itself is not of element type integron. -/
theorem eltFeature_ftype (bank : List Prot) (r : Row) (f : Feature)
    (h : eltFeature bank r = some f) (hr : r.type_elt ≠ "integron") :
    f.ftype ≠ "integron" := by
  by_cases hp : r.type_elt = "protein"
  · simp only [eltFeature, hp, if_pos] at h
    cases hh : (bank.filter (fun p => p.id == r.element)).head? <;> rw [hh] at h
    · exact absurd h (by simp)
    · simp only [Option.some.injEq] at h
      subst h
      by_cases ha : r.annot = "intI" <;> simp [ha]
  · simp only [eltFeature, hp, if_neg, if_false] at h
    simp only [Option.some.injEq] at h
    subst h
    simpa using hr

/-- No feature emitted by the element loop has the umbrella type. -/
theorem eltFeatures_count_integron (bank : List Prot) :
    ∀ {rows : List Row} {fs : List Feature}, eltFeatures bank rows = some fs →
      (∀ r ∈ rows, r.type_elt ≠ "integron") →
      fs.countP (fun f => f.ftype == "integron") = 0 := by
  intro rows
  induction rows with
  | nil =>
    intro fs h _
    simp only [eltFeatures, Option.some.injEq] at h
    subst h
    rfl
  | cons r t ih =>
    intro fs h hno
    simp only [eltFeatures] at h
    cases hf : eltFeature bank r <;> rw [hf] at h
    · exact absurd h (by simp)
    · cases ht : eltFeatures bank t <;> rw [ht] at h
      · exact absurd h (by simp)
      · simp only [Option.some.injEq] at h
        subst h
        rename_i f fs'
        have h1 : f.ftype ≠ "integron" :=
          eltFeature_ftype bank r f hf (hno r (List.mem_cons_self r t))
        have h2 := ih ht (fun x hx => hno x (List.mem_cons_of_mem r hx))
        simp [List.countP_cons, h1, h2]

/-- firstGapAux finds no gap exactly when every consecutive difference stays
within the threshold. -/
theorem firstGapAux_none_iff (thr : Int) (l : List Int) :
    ∀ (prev : Int) (i : Nat),
      firstGapAux thr prev l i = none ↔
        List.Chain' (fun a b => b - a ≤ thr) (prev :: l) := by
  induction l with
  | nil => intro prev i; simp [firstGapAux]
  | cons p t ih =>
    intro prev i
    simp only [firstGapAux, List.chain'_cons]
    by_cases hg : p - prev > thr
    · rw [if_pos hg]
      constructor
      · intro h; exact absurd h (by simp)
      · rintro ⟨h1, _⟩; exact absurd h1 (not_le.mpr hg)
    · rw [if_neg hg, ih p (i + 1)]
      constructor
      · intro h; exact ⟨not_lt.mp hg, h⟩
      · rintro ⟨_, h⟩; exact h

/-- The gap scan of lines 179-182 finds no gap exactly when no consecutive
pos_beg difference exceeds the threshold. -/
theorem firstGap_none_iff (ps : List Int) (thr : Int) :
    firstGap ps thr = none ↔ List.Chain' (fun a b => b - a ≤ thr) ps := by
  cases ps with
  | nil => simp [firstGap]
  | cons p t => exact firstGapAux_none_iff thr t p 1

/-- firstGapAux on a list that is within threshold up to a break point finds
the break point. -/
theorem firstGapAux_append (thr y : Int) (ys : List Int) (xs : List Int) :
    ∀ (prev : Int) (i : Nat),
      List.Chain' (fun a b => b - a ≤ thr) (prev :: xs) →
      y - xs.getLastD prev > thr →
      firstGapAux thr prev (xs ++ y :: ys) i = some (i + xs.length) := by
  induction xs with
  | nil =>
    intro prev i _ hg
    simp only [List.getLastD_nil] at hg
    simp [firstGapAux, hg]
  | cons x t ih =>
    intro prev i hch hg
    have hx : x - prev ≤ thr := (List.chain'_cons.mp hch).1
    have hch' : List.Chain' (fun a b => b - a ≤ thr) (x :: t) := (List.chain'_cons.mp hch).2
    rw [List.getLastD_cons] at hg
    have := ih x (i + 1) hch' hg
    simp only [List.cons_append, firstGapAux, if_neg (not_lt.mpr hx), List.append_eq]
    rw [this]
    simp only [List.length_cons, Option.some.injEq]
    omega

/-- The gap scan on a table split as an in-threshold prefix followed by a
jump finds the jump position, namely the length of the prefix. -/
theorem firstGap_append (thr x : Int) (xs : List Int) (y : Int) (ys : List Int)
    (hch : List.Chain' (fun a b => b - a ≤ thr) (x :: xs))
    (hg : y - (x :: xs).getLastD 0 > thr) :
    firstGap ((x :: xs) ++ y :: ys) thr = some (x :: xs).length := by
  rw [List.getLastD_cons] at hg
  simp only [List.cons_append, firstGap]
  rw [firstGapAux_append thr y ys xs x 1 hch hg]
  simp only [List.length_cons, Option.some.injEq]
  omega

/-- Reading a list at its last position with a default equals getLastD. -/
theorem getD_length_sub_one {α : Type} (l : List α) (d : α) :
    l.getD (l.length - 1) d = l.getLastD d := by
  rw [List.getD_eq_getElem?_getD, ← List.getLast?_eq_getElem?, List.getLastD_eq_getLast?]

/-! ### Claim theorems about add_feature -/

/-- C1 (amended): for every integron processed by add_feature, exactly one
umbrella feature of type integron with strand 0 and the integron_id /
integron_type qualifiers is emitted, and it comes first; when no gap between
consecutive rows pos_beg exceeds dist_threshold its location is the
contiguous interval from (first row pos_beg - 1) to (last row pos_end); when
the table splits as an in-threshold prefix followed by a jump larger than
dist_threshold, the umbrella is a single feature whose location is the join
of the two parts (pos_beg at the gap - 1, replicon length) and
(0, pos_end of the row before the gap), not two independent features. -/
theorem add_feature_umbrella (bank : List Prot) (L thr : Int) (gid : String)
    {rows : List Row} {fs : List Feature} {r0 : Row}
    (h0 : rows.head? = some r0)
    (hno : ∀ r ∈ rows, r.type_elt ≠ "integron")
    (h : integronFeatures bank L thr gid rows = some fs) :
    fs.countP (fun f => f.ftype == "integron") = 1 ∧
    fs.head? = some (multiUmbrella L thr gid rows) ∧
    (multiUmbrella L thr gid rows).strand = 0 ∧
    (multiUmbrella L thr gid rows).ftype = "integron" ∧
    (multiUmbrella L thr gid rows).qualifiers =
      [("integron_id", gid), ("integron_type", r0.itype)] ∧
    (List.Chain' (fun a b => b.pos_beg - a.pos_beg ≤ thr) rows →
      (multiUmbrella L thr gid rows).loc =
        Loc.contiguous (r0.pos_beg - 1) ((rows.map (fun r => r.pos_end)).getLastD 0)) ∧
    (∀ (xs ys : List Row) (xlast y0 : Row),
      rows = xs ++ ys → xs.getLast? = some xlast → ys.head? = some y0 →
      List.Chain' (fun a b => b.pos_beg - a.pos_beg ≤ thr) xs →
      y0.pos_beg - xlast.pos_beg > thr →
      (multiUmbrella L thr gid rows).loc = Loc.joined (y0.pos_beg - 1) L 0 xlast.pos_end) := by
  obtain ⟨t, rfl⟩ : ∃ t, rows = r0 :: t := by
    cases rows with
    | nil => simp at h0
    | cons a t => exact ⟨t, by simp_all⟩
  rw [integronFeatures_eq_multi] at h
  unfold multiFeatures at h
  cases he : eltFeatures bank (r0 :: t) <;> rw [he] at h
  · exact absurd h (by simp)
  · simp only [Option.some.injEq] at h
    subst h
    rename_i elts
    have humbtype : (multiUmbrella L thr gid (r0 :: t)).ftype = "integron" := by
      simp only [multiUmbrella]
      split <;> rfl
    refine ⟨?_, rfl, ?_, humbtype, ?_, ?_, ?_⟩
    · have hcount := eltFeatures_count_integron bank he hno
      simp [List.countP_cons, humbtype, hcount]
    · simp only [multiUmbrella]
      split <;> rfl
    · simp only [multiUmbrella]
      split <;> simp
    · intro hch
      have hnone : firstGap ((r0 :: t).map fun r : Row => r.pos_beg) thr = none :=
        (firstGap_none_iff _ thr).mpr ((List.chain'_map (fun r : Row => r.pos_beg)).mpr hch)
      simp only [multiUmbrella, hnone]
      simp
    · intro xs ys xlast y0 heq hlast hhead hchx hgap
      cases xs with
      | nil => exact absurd hlast (by simp)
      | cons x0 xs2 =>
      obtain ⟨ys2, rfl⟩ : ∃ ys2, ys = y0 :: ys2 := by
        cases ys with
        | nil => simp at hhead
        | cons b u => exact ⟨u, by simp_all⟩
      have hmaplast : ((x0 :: xs2).map (fun r : Row => r.pos_beg)).getLastD 0 =
          xlast.pos_beg := by
        rw [List.getLastD_eq_getLast?, List.getLast?_map, hlast]
        rfl
      have hchmap : List.Chain' (fun a b => b - a ≤ thr)
          (x0.pos_beg :: xs2.map (fun r : Row => r.pos_beg)) := by
        have := (List.chain'_map (R := fun x y : Int => y - x ≤ thr)
          (fun r : Row => r.pos_beg)).mpr hchx
        simpa using this
      have hfg : firstGap (((x0 :: xs2) ++ y0 :: ys2).map fun r : Row => r.pos_beg) thr =
          some (x0 :: xs2).length := by
        have := firstGap_append thr x0.pos_beg (xs2.map (fun r : Row => r.pos_beg))
          y0.pos_beg (ys2.map (fun r : Row => r.pos_beg)) hchmap
          (by rw [show (x0.pos_beg :: xs2.map fun r : Row => r.pos_beg) =
                    ((x0 :: xs2).map fun r : Row => r.pos_beg) from rfl, hmaplast]
              exact hgap)
        simpa using this
      rw [heq]
      simp only [multiUmbrella, hfg]
      have hgetbeg : ((((x0 :: xs2) ++ y0 :: ys2).map fun r : Row => r.pos_beg).getD
          (x0 :: xs2).length 0) = y0.pos_beg := by
        rw [List.map_append, List.getD_append_right _ _ _ _ (by simp)]
        simp
      have hgetend : ((((x0 :: xs2) ++ y0 :: ys2).map fun r : Row => r.pos_end).getD
          ((x0 :: xs2).length - 1) 0) = xlast.pos_end := by
        rw [List.map_append, List.getD_append _ _ _ _ (by simp)]
        rw [show (x0 :: xs2).length - 1 = ((x0 :: xs2).map fun r : Row => r.pos_end).length - 1
              from by simp]
        rw [getD_length_sub_one, List.getLastD_eq_getLast?, List.getLast?_map, hlast]
        rfl
      rw [hgetbeg, hgetend]

/-- Concrete input for the C1 counterexample: two rows within threshold of
each other whose last row does not attain the maximal pos_end. -/
def cxRow1 : Row := ⟨"e1", 1, 100, 1, "attC", "m", "attC", "complete"⟩

/-- Second row of the C1 counterexample table. -/
def cxRow2 : Row := ⟨"e2", 5, 10, 1, "attC", "m", "attC", "complete"⟩

/-- C1 (counterexample): on a two-row integron with rows (pos_beg 1,
pos_end 100) and (pos_beg 5, pos_end 10) and dist_threshold 4000, no gap
exceeds the threshold (5 - 1 = 4), yet the umbrella location, taken from the
first row pos_beg and the LAST row pos_end, is (0, 10) and differs from the
cluster span (min(pos_beg) - 1, max(pos_end)) = (0, 100) asserted by the
claim. -/
theorem add_feature_umbrella_cex :
    (5 : Int) - 1 ≤ 4000 ∧
    (integronFeatures [] 1000 4000 "integron_01" [cxRow1, cxRow2]).map List.head? =
      some (some (multiUmbrella 1000 4000 "integron_01" [cxRow1, cxRow2])) ∧
    (multiUmbrella 1000 4000 "integron_01" [cxRow1, cxRow2]).loc = Loc.contiguous 0 10 ∧
    Loc.contiguous 0 10 ≠ Loc.contiguous (min 1 5 - 1) (max 100 10) := by
  refine ⟨by decide, by decide, by decide, by decide⟩

/-- C2: the single-element branch of add_feature (lines 137-170) and the
several-element branch (lines 172-225) append exactly the same features when
the integron description has exactly one row: same types, locations, strands
and qualifiers, and the same abort behaviour on a failed protein lookup. -/
theorem add_feature_singleton_refines_multi (bank : List Prot) (L thr : Int)
    (gid : String) (r : Row) :
    singletonFeatures bank gid r = multiFeatures bank L thr gid [r] :=
  singletonBranch_eq_multiBranch bank L thr gid r

/-- C3: a protein element row projects as a feature at (pos_beg - 1, pos_end)
with the element strand, of type integrase when the semantic label is intI
and CDS otherwise, with protein_id / gene / model qualifiers and a
translation qualifier equal to the sequence found under the element
identifier in the companion protein FASTA; a non-protein row projects as a
feature of its own type_elt with the element identifier and model name as
qualifiers. -/
theorem add_feature_element_projection (bank : List Prot) (r : Row) :
    (∀ prt : Prot, r.type_elt = "protein" →
      bank.filter (fun p => p.id == r.element) = [prt] →
      eltFeature bank r = some
        { loc := Loc.contiguous (r.pos_beg - 1) r.pos_end
          strand := r.strand
          ftype := if r.annot = "intI" then "integrase" else "CDS"
          qualifiers := [("protein_id", r.element), ("gene", r.annot),
                         ("model", r.model), ("translation", prt.seq)] }) ∧
    (r.type_elt ≠ "protein" →
      eltFeature bank r = some
        { loc := Loc.contiguous (r.pos_beg - 1) r.pos_end
          strand := r.strand
          ftype := r.type_elt
          qualifiers := [(r.type_elt, r.element), ("model", r.model)] }) := by
  constructor
  · intro prt hp hfilter
    simp only [eltFeature, hp, if_pos, hfilter, List.head?_cons]
    by_cases ha : r.annot = "intI" <;> simp [ha]
  · intro hp
    simp [eltFeature, hp]

/-- Concrete protein bank for the C3 witness: the integrase protein of the
spec example, under its element identifier. -/
def exBank : List Prot := [⟨"ACBA.007.P01_13_1", "MKTATAPLGGSQIVHHL"⟩]

/-- Concrete integrase row for the C3 witness. -/
def exIntIRow : Row := ⟨"ACBA.007.P01_13_1", 55, 1014, 1, "protein", "intersection_tyr_intI", "intI", "complete"⟩

/-- C3 witness: the projection of the intI protein element of the spec
example has the distinguished integrase type and its translation qualifier is
the sequence stored under the identifier ACBA.007.P01_13_1 of the bank. -/
theorem add_feature_element_projection_witness :
    eltFeature exBank exIntIRow = some
      { loc := Loc.contiguous 54 1014
        strand := 1
        ftype := "integrase"
        qualifiers := [("protein_id", "ACBA.007.P01_13_1"), ("gene", "intI"),
                       ("model", "intersection_tyr_intI"),
                       ("translation", "MKTATAPLGGSQIVHHL")] } := by
  have H := (add_feature_element_projection exBank exIntIRow).1
    ⟨"ACBA.007.P01_13_1", "MKTATAPLGGSQIVHHL"⟩ rfl (by decide)
  simpa using H

/-- C4: for every integron, the features appended by add_feature are the
umbrella feature first, then exactly one feature per element row following
the per-integron row order. -/
theorem add_feature_emission_order (bank : List Prot) (L thr : Int) (gid : String)
    {rows : List Row} {fs : List Feature}
    (h : integronFeatures bank L thr gid rows = some fs) :
    fs.length = rows.length + 1 ∧
    fs.head? = some (multiUmbrella L thr gid rows) ∧
    ∀ i : Nat, fs[i + 1]? = (rows[i]?).bind (eltFeature bank) := by
  rw [integronFeatures_eq_multi] at h
  unfold multiFeatures at h
  cases he : eltFeatures bank rows <;> rw [he] at h
  · exact absurd h (by simp)
  · simp only [Option.some.injEq] at h
    subst h
    obtain ⟨hlen, hidx⟩ := eltFeatures_spec bank he
    exact ⟨by simp [hlen], rfl, fun i => by simpa using hidx i⟩

/-- First attC row of the witness scenarios (positions from the spec test
scenario). -/
def exR1 : Row := ⟨"attc_001", 17825, 17884, -1, "attC", "attc_4", "attC", "complete"⟩

/-- Second attC row of the witness scenarios. -/
def exR2 : Row := ⟨"attc_002", 19080, 19149, -1, "attC", "attc_4", "attC", "complete"⟩

/-- Third attC row of the witness scenarios. -/
def exR3 : Row := ⟨"attc_003", 19618, 19726, -1, "attC", "attc_4", "attC", "complete"⟩

/-- Origin-side row of the wraparound witness scenario. -/
def exOrigin : Row := ⟨"attc_010", 10, 50, -1, "attC", "attc_4", "attC", "complete"⟩

/-- End-of-replicon row of the wraparound witness scenario. -/
def exEnd : Row := ⟨"attc_011", 19000, 19500, -1, "attC", "attc_4", "attC", "complete"⟩

/-- C1 witness: on the three-attC cluster the umbrella has strand 0 and the
contiguous location (17824, 19726); on the wraparound cluster the umbrella is
the single joined location (18999, 20000) + (0, 50). -/
theorem add_feature_umbrella_witness :
    (multiUmbrella 20000 4000 "i1" [exR1, exR2, exR3]).strand = 0 ∧
    (multiUmbrella 20000 4000 "i1" [exR1, exR2, exR3]).loc = Loc.contiguous 17824 19726 ∧
    (multiUmbrella 20000 4000 "i2" [exOrigin, exEnd]).loc = Loc.joined 18999 20000 0 50 := by
  have h1 : integronFeatures [] 20000 4000 "i1" [exR1, exR2, exR3] =
      some ((integronFeatures [] 20000 4000 "i1" [exR1, exR2, exR3]).getD []) := rfl
  have H1 := add_feature_umbrella [] 20000 4000 "i1"
    (show ([exR1, exR2, exR3] : List Row).head? = some exR1 from rfl)
    (by decide : ∀ r ∈ ([exR1, exR2, exR3] : List Row), r.type_elt ≠ "integron") h1
  have h2 : integronFeatures [] 20000 4000 "i2" [exOrigin, exEnd] =
      some ((integronFeatures [] 20000 4000 "i2" [exOrigin, exEnd]).getD []) := rfl
  have H2 := add_feature_umbrella [] 20000 4000 "i2"
    (show ([exOrigin, exEnd] : List Row).head? = some exOrigin from rfl)
    (by decide : ∀ r ∈ ([exOrigin, exEnd] : List Row), r.type_elt ≠ "integron") h2
  refine ⟨H1.2.2.1, ?_, ?_⟩
  · have hc := H1.2.2.2.2.2.1
      (by norm_num [List.chain'_cons, List.chain'_singleton, exR1, exR2, exR3])
    simp only [exR1, exR2, exR3, List.map_cons, List.map_nil] at hc
    norm_num at hc
    exact hc
  · have hj := H2.2.2.2.2.2.2 [exOrigin] [exEnd] exOrigin exEnd rfl rfl rfl
      (by simp) (by norm_num [exOrigin, exEnd])
    simp only [exOrigin, exEnd] at hj
    norm_num at hj
    exact hj

/-- C4 witness: on a concrete two-row integron the emitted list has length 3,
starts with the umbrella feature, and its second entry is the projection of
the first row. -/
theorem add_feature_emission_order_witness :
    ((integronFeatures [] 20000 4000 "i1" [exR1, exR2]).getD []).length = 3 ∧
    ((integronFeatures [] 20000 4000 "i1" [exR1, exR2]).getD []).head? =
      some (multiUmbrella 20000 4000 "i1" [exR1, exR2]) ∧
    ((integronFeatures [] 20000 4000 "i1" [exR1, exR2]).getD [])[1]? =
      ([exR1, exR2][0]?).bind (eltFeature []) := by
  have h : integronFeatures [] 20000 4000 "i1" [exR1, exR2] =
      some ((integronFeatures [] 20000 4000 "i1" [exR1, exR2]).getD []) := rfl
  have H := add_feature_emission_order [] 20000 4000 "i1" h
  exact ⟨H.1, H.2.1, H.2.2 0⟩

/-- Protein bank with two sequences sharing one identifier, for the C5
counterexample. -/
def dupBank : List Prot := [⟨"p1", "AAA"⟩, ⟨"p1", "BBB"⟩]

/-- Protein element row looked up in dupBank. -/
def protRow5 : Row := ⟨"p1", 10, 50, 1, "protein", "m", "intI", "complete"⟩

/-- C5 (counterexample): when the element identifier matches two sequences of
the companion FASTA, add_feature does not fail: it silently emits the feature
with the translation of the FIRST match. -/
theorem protein_lookup_cex :
    (dupBank.filter (fun p => p.id == "p1")).length = 2 ∧
    eltFeature dupBank protRow5 = some
      { loc := Loc.contiguous 9 50
        strand := 1
        ftype := "integrase"
        qualifiers := [("protein_id", "p1"), ("gene", "intI"), ("model", "m"),
                       ("translation", "AAA")] } ∧
    eltFeature dupBank protRow5 ≠ none := by
  refine ⟨by decide, by decide, by decide⟩

/-- C5 (amended): for a protein element row, a lookup matching zero sequences
makes add_feature abort with an uncaught IndexError (no descriptive error),
and a lookup matching one or more sequences silently uses the first match:
the emitted translation qualifier is the sequence of the first matching FASTA
entry. -/
theorem protein_lookup_behavior (bank : List Prot) (r : Row)
    (hp : r.type_elt = "protein") :
    (bank.filter (fun p => p.id == r.element) = [] → eltFeature bank r = none) ∧
    (∀ (prt : Prot) (rest : List Prot),
      bank.filter (fun p => p.id == r.element) = prt :: rest →
      ∃ f, eltFeature bank r = some f ∧ ("translation", prt.seq) ∈ f.qualifiers) := by
  constructor
  · intro hf
    simp [eltFeature, hp, hf]
  · intro prt rest hf
    exact ⟨{ loc := Loc.contiguous (r.pos_beg - 1) r.pos_end
             strand := r.strand
             ftype := if r.annot ≠ "intI" then "CDS" else "integrase"
             qualifiers := [("protein_id", r.element), ("gene", r.annot),
                            ("model", r.model), ("translation", prt.seq)] },
           by simp [eltFeature, hp, hf], by simp⟩

/-- C5 witness: the empty bank crashes the lookup, and the ambiguous bank
yields the first sequence AAA as translation. -/
theorem protein_lookup_behavior_witness :
    eltFeature [] protRow5 = none ∧
    ("translation", "AAA") ∈ ((eltFeature dupBank protRow5).getD
      { loc := Loc.contiguous 0 0, strand := 0, ftype := "", qualifiers := [] }).qualifiers := by
  constructor
  · exact (protein_lookup_behavior [] protRow5 rfl).1 rfl
  · obtain ⟨f, hf, hmem⟩ := (protein_lookup_behavior dupBank protRow5 rfl).2
      ⟨"p1", "AAA"⟩ [⟨"p1", "BBB"⟩] (by decide)
    rw [hf]
    simpa using hmem

/-- C6 (amended): after add_feature returns, a replicon name longer than 16
characters is replaced by exactly its last 16 characters (a length-16 suffix
of the original), and a name of length at most 16 is left unchanged; the
26-character name gi|00000000|gb|XX123456.2| keeps its last 16 characters,
retaining the gb|XX123456.2| suffix. -/
theorem replicon_name_truncation (bank : List Prot) (thr : Int) (repl : Replicon)
    (desc : List (String × List Row)) {out : Replicon}
    (h : add_feature bank thr repl desc = some out) :
    (repl.name.length ≤ 16 → out.name = repl.name) ∧
    (16 < repl.name.length →
      out.name.data.length = 16 ∧ out.name.data <:+ repl.name.data) := by
  unfold add_feature at h
  cases hg : groupsFeatures bank repl.length thr desc <;> rw [hg] at h
  · exact absurd h (by simp)
  · simp only [Option.some.injEq] at h
    subst h
    constructor
    · intro hle
      simp only [truncateName]
      rw [if_neg (not_lt.mpr hle)]
    · intro hgt
      have h16 : 16 < repl.name.data.length := hgt
      simp only [truncateName, if_pos hgt]
      refine ⟨?_, List.drop_suffix _ _⟩
      simp only [List.length_drop]
      omega

/-- C6 (counterexample): the example replicon name of the claim has 26
characters, not 27; truncation still keeps its last 16 characters. -/
theorem replicon_name_length_cex :
    ("gi|00000000|gb|XX123456.2|" : String).length = 26 ∧
    ("gi|00000000|gb|XX123456.2|" : String).length ≠ 27 ∧
    truncateName "gi|00000000|gb|XX123456.2|" = "0|gb|XX123456.2|" := by
  refine ⟨by decide, by decide, by decide⟩

/-- C6 witness: running add_feature on a replicon named
gi|00000000|gb|XX123456.2| truncates the name to its last 16 characters,
which retain the gb|XX123456.2| suffix. -/
theorem replicon_name_truncation_witness :
    (truncateName "gi|00000000|gb|XX123456.2|").data.length = 16 ∧
    (truncateName "gi|00000000|gb|XX123456.2|").data <:+
      ("gi|00000000|gb|XX123456.2|" : String).data ∧
    truncateName "gi|00000000|gb|XX123456.2|" = "0|gb|XX123456.2|" ∧
    ("gb|XX123456.2|" : String).data <:+ ("0|gb|XX123456.2|" : String).data := by
  have h : add_feature [] 0 ⟨"gi|00000000|gb|XX123456.2|", 100, []⟩ [] =
      some ⟨truncateName "gi|00000000|gb|XX123456.2|", 100, []⟩ := rfl
  have H := (replicon_name_truncation [] 0 ⟨"gi|00000000|gb|XX123456.2|", 100, []⟩ [] h).2
    (by decide)
  exact ⟨H.1, H.2, by decide, by decide⟩

/-! ### Helper lemmas about the func_annot embedding -/

instance : IsTotal Hit (fun a b => a.evalue ≤ b.evalue) :=
  ⟨fun a b => le_total a.evalue b.evalue⟩

instance : IsTrans Hit (fun a b => a.evalue ≤ b.evalue) :=
  ⟨fun _ _ _ h1 h2 => le_trans h1 h2⟩

/-- The dedup pass returns a sublist of its input. -/
theorem dropDupProt_sublist : ∀ (l : List Hit) (seen : List String),
    List.Sublist (dropDupProt seen l) l := by
  intro l
  induction l with
  | nil => intro seen; simp [dropDupProt]
  | cons h t ih =>
    intro seen
    by_cases hs : h.ID_prot ∈ seen
    · simp only [dropDupProt, if_pos hs]
      exact (ih seen).cons h
    · simp only [dropDupProt, if_neg hs]
      exact (ih (h.ID_prot :: seen)).cons₂ h

/-- The dedup pass emits pairwise-distinct identifiers, none of them already
seen. -/
theorem dropDupProt_nodup : ∀ (l : List Hit) (seen : List String),
    ((dropDupProt seen l).map Hit.ID_prot).Nodup ∧
    ∀ x ∈ dropDupProt seen l, x.ID_prot ∉ seen := by
  intro l
  induction l with
  | nil => intro seen; simp [dropDupProt]
  | cons h t ih =>
    intro seen
    by_cases hs : h.ID_prot ∈ seen
    · simp only [dropDupProt, if_pos hs]
      exact ih seen
    · simp only [dropDupProt, if_neg hs]
      obtain ⟨ihn, ihs⟩ := ih (h.ID_prot :: seen)
      constructor
      · simp only [List.map_cons, List.nodup_cons]
        refine ⟨?_, ihn⟩
        intro hmem
        obtain ⟨x, hx, hxe⟩ := List.mem_map.mp hmem
        exact (ihs x hx) (by rw [hxe]; exact List.mem_cons_self _ _)
      · intro x hx
        rcases List.mem_cons.mp hx with rfl | hx2
        · exact hs
        · exact fun hmem => (ihs x hx2) (List.mem_cons_of_mem _ hmem)

/-- The dedup pass is the identity on tables whose identifiers are already
pairwise distinct and disjoint from the seen set. -/
theorem dropDupProt_eq_self : ∀ (l : List Hit) (seen : List String),
    (∀ x ∈ l, x.ID_prot ∉ seen) → (l.map Hit.ID_prot).Nodup →
    dropDupProt seen l = l := by
  intro l
  induction l with
  | nil => intro seen _ _; rfl
  | cons h t ih =>
    intro seen hseen hnodup
    have hs : h.ID_prot ∉ seen := hseen h (List.mem_cons_self _ _)
    simp only [dropDupProt, if_neg hs]
    congr 1
    simp only [List.map_cons, List.nodup_cons] at hnodup
    refine ih (h.ID_prot :: seen) ?_ hnodup.2
    intro x hx
    simp only [List.mem_cons, not_or]
    refine ⟨?_, hseen x (List.mem_cons_of_mem _ hx)⟩
    intro hxe
    exact hnodup.1 (hxe ▸ List.mem_map_of_mem Hit.ID_prot hx)

/-- On a table sorted by ascending evalue, every identifier of the input is
represented in the dedup output by a row with an evalue at most its own. -/
theorem dropDupProt_covers : ∀ (l : List Hit) (seen : List String),
    List.Pairwise (fun a b => a.evalue ≤ b.evalue) l →
    ∀ x ∈ l, x.ID_prot ∉ seen →
    ∃ y ∈ dropDupProt seen l, y.ID_prot = x.ID_prot ∧ y.evalue ≤ x.evalue := by
  intro l
  induction l with
  | nil => intro seen _ x hx; exact absurd hx (by simp)
  | cons h t ih =>
    intro seen hp x hx hxs
    obtain ⟨hhead, htail⟩ := List.pairwise_cons.mp hp
    by_cases hs : h.ID_prot ∈ seen
    · simp only [dropDupProt, if_pos hs]
      rcases List.mem_cons.mp hx with rfl | hx2
      · exact absurd hs hxs
      · exact ih seen htail x hx2 hxs
    · simp only [dropDupProt, if_neg hs]
      rcases List.mem_cons.mp hx with rfl | hx2
      · exact ⟨x, List.mem_cons_self _ _, rfl, le_rfl⟩
      · by_cases heq : x.ID_prot = h.ID_prot
        · exact ⟨h, List.mem_cons_self _ _, heq.symm, hhead x hx2⟩
        · obtain ⟨y, hy, hy1, hy2⟩ := ih (h.ID_prot :: seen) htail x hx2
            (by simp [List.mem_cons, heq, hxs])
          exact ⟨y, List.mem_cons_of_mem _ hy, hy1, hy2⟩

/-- Integrons of type In0 or with an empty protein table pass through
func_annot untouched. -/
theorem funcAnnotIntegron_skip (tool : String) (runs : List HmmRun) (i : Integron)
    (h : i.itype = "In0" ∨ i.proteins = []) :
    funcAnnotIntegron tool runs i = .ok i := by
  unfold funcAnnotIntegron
  rcases h with h | h <;> simp [h]

/-- A failing hmmsearch invocation aborts the profile loop with its error,
whatever profiles remain after it. -/
theorem mergeRuns_error (tool : String) (run : HmmRun) (rest : List HmmRun) :
    ∀ pre : List HmmRun, (∀ p ∈ pre, runHmm tool p.callResult = .ok ()) →
      ∀ e, runHmm tool run.callResult = .error e →
      mergeRuns tool (pre ++ run :: rest) = .error e := by
  intro pre
  induction pre with
  | nil =>
    intro _ e he
    simp only [List.nil_append, mergeRuns, he]
  | cons p ps ih =>
    intro hpre e he
    have hp : runHmm tool p.callResult = .ok () := hpre p (List.mem_cons_self _ _)
    simp only [List.cons_append, mergeRuns, hp, List.append_eq]
    rw [ih (fun q hq => hpre q (List.mem_cons_of_mem _ hq)) e he]

/-- The scan over the protein bank, started from a bound counter. -/
theorem protLoop_foldl_some (protIndex : List String) :
    ∀ (bank : List Prot) (k : Nat) (acc : List Prot),
      bank.foldl (fun st p => (some (st.1.getD 0 + 1),
          if p.id ∈ protIndex then st.2 ++ [p] else st.2)) (some k, acc) =
        (some (k + bank.length),
          acc ++ bank.filter (fun p => decide (p.id ∈ protIndex))) := by
  intro bank
  induction bank with
  | nil => intro k acc; simp
  | cons p t ih =>
    intro k acc
    simp only [List.foldl_cons, List.filter_cons, List.length_cons, Option.getD_some]
    have harith : k + (t.length + 1) = k + 1 + t.length := by omega
    by_cases hp : p.id ∈ protIndex
    · rw [if_pos hp, ih (k + 1) (acc ++ [p]), harith]
      simp [hp, List.append_assoc]
    · rw [if_neg hp, ih (k + 1) acc, harith]
      simp [hp]

/-- After the bank scan, the loop counter holds the total number of bank
sequences (unbound when the bank is empty) and the accumulated subset is the
bank filtered by the integron protein index. -/
theorem protLoop_spec (protIndex : List String) (bank : List Prot) :
    (protLoop protIndex bank).1 = (if bank = [] then none else some bank.length) ∧
    (protLoop protIndex bank).2 = bank.filter (fun p => decide (p.id ∈ protIndex)) := by
  cases bank with
  | nil => simp [protLoop]
  | cons p t =>
    have hstep : protLoop protIndex (p :: t) =
        t.foldl (fun st q => (some (st.1.getD 0 + 1),
          if q.id ∈ protIndex then st.2 ++ [q] else st.2))
          (some 1, if p.id ∈ protIndex then [p] else []) := rfl
    rw [hstep]
    by_cases hp : p.id ∈ protIndex
    · rw [if_pos hp, protLoop_foldl_some protIndex t 1 [p]]
      constructor
      · simp [Nat.add_comm]
      · simp [hp]
    · rw [if_neg hp, protLoop_foldl_some protIndex t 1 []]
      constructor
      · simp [Nat.add_comm]
      · simp [hp]

/-! ### Claim theorems about func_annot -/

/-- C7: func_annot leaves every integron whose type is In0 or whose protein
table is empty completely unchanged, even while annotating the other
integrons of the list. -/
theorem func_annot_skips (tool : String) (runsOf : Integron → List HmmRun)
    {is out : List Integron} (h : funcAnnotList tool runsOf is = .ok out) :
    out.length = is.length ∧
    ∀ (k : Nat) (i : Integron), is[k]? = some i →
      (i.itype = "In0" ∨ i.proteins = []) → out[k]? = some i := by
  induction is generalizing out with
  | nil =>
    simp only [funcAnnotList, Except.ok.injEq] at h
    subst h
    exact ⟨rfl, fun k i hk => absurd hk (by simp)⟩
  | cons i t ih =>
    simp only [funcAnnotList] at h
    cases hfi : funcAnnotIntegron tool (runsOf i) i <;> rw [hfi] at h
    · exact absurd h (by simp)
    · cases hft : funcAnnotList tool runsOf t <;> rw [hft] at h
      · exact absurd h (by simp)
      · simp only [Except.ok.injEq] at h
        subst h
        obtain ⟨hlen, hidx⟩ := ih hft
        refine ⟨by simp [hlen], ?_⟩
        intro k j hk hskip
        cases k with
        | zero =>
          have hji : i = j := by simpa using hk
          have hskip2 : i.itype = "In0" ∨ i.proteins = [] := by rw [hji]; exact hskip
          rw [funcAnnotIntegron_skip tool (runsOf i) i hskip2] at hfi
          simp only [Except.ok.injEq] at hfi
          simp only [List.getElem?_cons_zero]
          rw [← hfi, hji]
        | succ m =>
          simp only [List.getElem?_cons_succ] at hk ⊢
          exact hidx m j hk hskip

/-- In0 integron for the C7 witness. -/
def iIn0 : Integron := ⟨"In0", [⟨"prot1", 10, "", "intI_Phage"⟩]⟩

/-- Protein-less integron for the C7 witness. -/
def iEmpty : Integron := ⟨"complete", []⟩

/-- C7 witness: a list holding an In0 integron and a protein-less integron
passes through func_annot unchanged. -/
theorem func_annot_skips_witness :
    funcAnnotList "hmmsearch" (fun _ => []) [iIn0, iEmpty] = .ok [iIn0, iEmpty] ∧
    ([iIn0, iEmpty] : List Integron)[0]? = some iIn0 ∧
    ([iIn0, iEmpty] : List Integron)[1]? = some iEmpty := by
  have h : funcAnnotList "hmmsearch" (fun _ => []) [iIn0, iEmpty] = .ok [iIn0, iEmpty] := rfl
  have H := func_annot_skips "hmmsearch" (fun _ => []) h
  exact ⟨h, H.2 0 iIn0 rfl (Or.inl rfl), H.2 1 iEmpty rfl (Or.inr rfl)⟩

/-- C8: the hit-merging rule of func_annot (sort by ascending evalue, then
drop duplicate rows per ID_prot keeping the first) keeps only rows of the
input, with pairwise-distinct identifiers, representing each input
identifier by a row of minimal evalue; applying it twice equals applying it
once. -/
theorem hit_dedup_min_idempotent (l : List Hit) :
    (∀ y ∈ sortDedup l, y ∈ l) ∧
    ((sortDedup l).map Hit.ID_prot).Nodup ∧
    (∀ x ∈ l, ∃ y ∈ sortDedup l, y.ID_prot = x.ID_prot ∧ y.evalue ≤ x.evalue) ∧
    sortDedup (sortDedup l) = sortDedup l := by
  have hperm : List.Perm (sortByEvalue l) l := List.perm_insertionSort _ l
  have hsorted : List.Sorted (fun a b : Hit => a.evalue ≤ b.evalue) (sortByEvalue l) :=
    List.sorted_insertionSort _ l
  have hsub : List.Sublist (dropDupProt [] (sortByEvalue l)) (sortByEvalue l) :=
    dropDupProt_sublist _ _
  refine ⟨?_, (dropDupProt_nodup _ _).1, ?_, ?_⟩
  · intro y hy
    exact hperm.mem_iff.mp (hsub.subset hy)
  · intro x hx
    exact dropDupProt_covers _ [] hsorted x (hperm.mem_iff.mpr hx) (by simp)
  · have hs2 : List.Sorted (fun a b : Hit => a.evalue ≤ b.evalue) (sortDedup l) :=
      List.Pairwise.sublist hsub hsorted
    have heq1 : sortByEvalue (sortDedup l) = sortDedup l :=
      List.Sorted.insertionSort_eq hs2
    show dropDupProt [] (sortByEvalue (sortDedup l)) = sortDedup l
    rw [heq1]
    exact dropDupProt_eq_self _ [] (by simp) (dropDupProt_nodup _ _).1

/-- Hit with identifier a and evalue 3, for the C8 witness. -/
def wHit1 : Hit := ⟨"q1", "m1", "a", 3⟩

/-- Hit with identifier a and evalue 1, for the C8 witness. -/
def wHit2 : Hit := ⟨"q2", "m2", "a", 1⟩

/-- Hit with identifier b and evalue 2, for the C8 witness. -/
def wHit3 : Hit := ⟨"q3", "m3", "b", 2⟩

/-- C8 witness: on a concrete merged table the rule keeps the evalue-1 row
for identifier a and the single row for b, and a second application changes
nothing. -/
theorem hit_dedup_min_idempotent_witness :
    sortDedup (sortDedup [wHit1, wHit2, wHit3]) = sortDedup [wHit1, wHit2, wHit3] ∧
    ((sortDedup [wHit1, wHit2, wHit3]).map Hit.ID_prot).Nodup ∧
    sortDedup [wHit1, wHit2, wHit3] = [wHit2, wHit3] := by
  refine ⟨(hit_dedup_min_idempotent [wHit1, wHit2, wHit3]).2.2.2,
    (hit_dedup_min_idempotent [wHit1, wHit2, wHit3]).2.1, by decide⟩

/-- C9: a hmmsearch invocation of func_annot that cannot be launched, or that
exits with a non-zero return code, makes func_annot raise a RuntimeError
naming the executable (and the return code in the non-zero case), with no
retry: whatever profiles remain after the failing one are never reached and
the error propagates to the caller. -/
theorem hmm_invocation_error (tool : String) (pre rest : List HmmRun) (run : HmmRun)
    (i : Integron) (hty : i.itype ≠ "In0") (hpr : i.proteins ≠ [])
    (hpre : ∀ p ∈ pre, runHmm tool p.callResult = .ok ()) :
    (∀ err, run.callResult = .launchFailure err →
      funcAnnotIntegron tool (pre ++ run :: rest) i =
        .error (tool ++ " failed : " ++ err)) ∧
    (∀ rc : Int, run.callResult = .ok rc → rc ≠ 0 →
      funcAnnotIntegron tool (pre ++ run :: rest) i =
        .error (tool ++ " failed return code = " ++ toString rc)) := by
  constructor
  · intro err hrc
    have he : runHmm tool run.callResult = .error (tool ++ " failed : " ++ err) := by
      rw [hrc]
      rfl
    have hm := mergeRuns_error tool run rest pre hpre _ he
    unfold funcAnnotIntegron
    rw [if_pos ⟨hty, hpr⟩, hm]
  · intro rc hrc hrc0
    have he : runHmm tool run.callResult =
        .error (tool ++ " failed return code = " ++ toString rc) := by
      rw [hrc]
      simp [runHmm, hrc0]
    have hm := mergeRuns_error tool run rest pre hpre _ he
    unfold funcAnnotIntegron
    rw [if_pos ⟨hty, hpr⟩, hm]

/-- Annotatable integron for the C9 and C10 witnesses. -/
def iFull : Integron := ⟨"complete", [⟨"prot1", 10, "", ""⟩]⟩

/-- C9 witness: a return code 1 yields the RuntimeError naming hmmsearch and
the code, a launch failure yields the RuntimeError naming hmmsearch and the
launch error message. -/
theorem hmm_invocation_error_witness :
    funcAnnotIntegron "hmmsearch" [⟨CallResult.ok 1, []⟩] iFull =
      .error "hmmsearch failed return code = 1" ∧
    funcAnnotIntegron "hmmsearch" [⟨CallResult.launchFailure "No such file or directory", []⟩]
        iFull = .error "hmmsearch failed : No such file or directory" := by
  constructor
  · have H := (hmm_invocation_error "hmmsearch" [] [] ⟨CallResult.ok 1, []⟩ iFull
      (by decide) (by decide) (by simp)).2 1 rfl (by decide)
    simpa using H
  · have H := (hmm_invocation_error "hmmsearch" [] []
      ⟨CallResult.launchFailure "No such file or directory", []⟩ iFull
      (by decide) (by decide) (by simp)).1 "No such file or directory" rfl
    simpa using H

/-- C10: when func_annot reaches the command-building step (at least one hmm
profile) for an annotatable integron, an empty protein bank leaves the loop
counter prot_nb unbound and the run dies with an UnboundLocalError instead of
a descriptive empty-input error; with a non-empty bank, the -Z argument of
every command is the total number of sequences of the whole protein file,
while the subset written to the scratch FASTA is only the bank filtered by
the integron protein index. -/
theorem func_annot_empty_bank (hmmsearch : String) (cpu : Nat)
    (tblout hmm_out prot_tmp : String) (protIndex : List String) (bank : List Prot)
    (hmm_files : List String) (hne : hmm_files ≠ []) :
    (bank = [] →
      funcAnnotCmds hmmsearch cpu tblout hmm_out prot_tmp protIndex bank hmm_files =
        .error "UnboundLocalError: local variable prot_nb referenced before assignment") ∧
    (bank ≠ [] →
      funcAnnotCmds hmmsearch cpu tblout hmm_out prot_tmp protIndex bank hmm_files =
        .ok (hmm_files.map (fun hmm => [hmmsearch, "-Z", toString bank.length, "--cpu",
          toString cpu, "--tblout", tblout, "-o", hmm_out, hmm, prot_tmp])) ∧
      (protLoop protIndex bank).2 = bank.filter (fun p => decide (p.id ∈ protIndex))) := by
  constructor
  · intro hb
    subst hb
    cases hmm_files with
    | nil => exact absurd rfl hne
    | cons hmm t =>
      have h1 : (protLoop protIndex ([] : List Prot)).1 = none := rfl
      simp only [funcAnnotCmds, h1, buildHmmCmd]
  · intro hb
    have h1 : (protLoop protIndex bank).1 = some bank.length := by
      rw [(protLoop_spec protIndex bank).1, if_neg hb]
    refine ⟨?_, (protLoop_spec protIndex bank).2⟩
    clear hne
    induction hmm_files with
    | nil => rfl
    | cons hmm t ih =>
      simp only [funcAnnotCmds, h1, buildHmmCmd, List.map_cons, ih]

/-- Two-sequence protein bank for the C10 witness; only the first belongs to
the integron. -/
def bankW : List Prot := [⟨"a", "MA"⟩, ⟨"b", "MB"⟩]

/-- C10 witness: with an empty bank the single command dies with the
UnboundLocalError; with the two-sequence bank the command passes -Z 2 (the
whole bank) although only one protein is written to the subset file. -/
theorem func_annot_empty_bank_witness :
    funcAnnotCmds "hmmsearch" 4 "tbl.res" "out.res" "subseqprot.tmp" ["a"] [] ["Resfams.hmm"] =
      .error "UnboundLocalError: local variable prot_nb referenced before assignment" ∧
    funcAnnotCmds "hmmsearch" 4 "tbl.res" "out.res" "subseqprot.tmp" ["a"] bankW
        ["Resfams.hmm"] =
      .ok [["hmmsearch", "-Z", "2", "--cpu", "4", "--tblout", "tbl.res", "-o", "out.res",
            "Resfams.hmm", "subseqprot.tmp"]] ∧
    (protLoop ["a"] bankW).2.length = 1 ∧ bankW.length = 2 := by
  have H1 := (func_annot_empty_bank "hmmsearch" 4 "tbl.res" "out.res" "subseqprot.tmp"
    ["a"] [] ["Resfams.hmm"] (by simp)).1 rfl
  have H2 := (func_annot_empty_bank "hmmsearch" 4 "tbl.res" "out.res" "subseqprot.tmp"
    ["a"] bankW ["Resfams.hmm"] (by simp)).2 (by simp [bankW])
  refine ⟨H1, ?_, by decide, by decide⟩
  simpa using H2.1

end IntegronFinder
